import Mathlib

/-!
Shallow embedding of the vehicle-auction ingestion pipeline (src/main.py).

Strings are modelled as `List Char` (ASCII inputs).  The date machinery
(`parse_auction_date`) is modelled step by step after the source: the two
`str.replace` calls, the `re.search` for the fixed date pattern, Python's
`strptime` with layout `"%Y %a %b %d, %I:%M%p"` (including its exact digit
alternations, case-insensitive name matching and full-match requirement),
and the `pytz` US/Central localization (with `is_dst=False` resolution of
ambiguous/nonexistent times, using the post-2007 US daylight-saving rule)
followed by conversion to UTC.  Calendar arithmetic uses the standard
civil-from-days / days-from-civil algorithms.
-/

namespace VehicleAuctions

/-! ## Character utilities -/

/-- ASCII whitespace, as matched by Python's `\s` / `str.strip` on ASCII text. -/
def isWsChar (c : Char) : Bool :=
  c = ' ' || c = '\t' || c = '\n' || c = '\r' || c = '\x0b' || c = '\x0c'

/-- ASCII decimal digit, Python regex `\d` on ASCII text. -/
def isAsciiDigit (c : Char) : Bool := '0' ≤ c && c ≤ '9'

/-- ASCII letter, Python regex `[a-zA-Z]`. -/
def isAsciiAlpha (c : Char) : Bool := ('a' ≤ c && c ≤ 'z') || ('A' ≤ c && c ≤ 'Z')

/-- Numeric value of a digit character. -/
def digitVal (c : Char) : Nat := c.toNat - 48

/-- The digit character for `n < 10`. -/
def digitC (n : Nat) : Char := Char.ofNat (48 + n)

/-- Fuel-driven digit rendering (structural recursion so that terms reduce). -/
def renderNatAux : Nat → Nat → List Char
  | 0, _ => []
  | fuel + 1, n =>
    if n < 10 then [digitC n] else renderNatAux fuel (n / 10) ++ [digitC (n % 10)]

/-- Decimal rendering of a natural number, Python `f"{n}"`. -/
def renderNat (n : Nat) : List Char := renderNatAux (n + 1) n

/-- Two-digit rendering (leading zero) of `n < 100`. -/
def render2 (n : Nat) : List Char := [digitC (n / 10), digitC (n % 10)]

/-- Python `str.strip()` on ASCII text. -/
def trimChars (s : List Char) : List Char :=
  (((s.dropWhile isWsChar).reverse).dropWhile isWsChar).reverse

/-- Python `str.replace(p1p2, r1r2)` for a two-character pattern:
left-to-right, non-overlapping, replacements not rescanned. -/
def replace2 (p1 p2 r1 r2 : Char) : List Char → List Char
  | [] => []
  | [c] => [c]
  | c1 :: c2 :: rest =>
    if c1 = p1 ∧ c2 = p2 then r1 :: r2 :: replace2 p1 p2 r1 r2 rest
    else c1 :: replace2 p1 p2 r1 r2 (c2 :: rest)

/-! ## Calendar arithmetic (proleptic Gregorian) -/

/-- Gregorian leap year. -/
def isLeap (y : Int) : Bool := y.emod 4 = 0 && (y.emod 100 ≠ 0 || y.emod 400 = 0)

/-- Number of days in a month. -/
def daysInMonth (y : Int) (m : Nat) : Nat :=
  if m = 2 then (if isLeap y then 29 else 28)
  else if m = 4 ∨ m = 6 ∨ m = 9 ∨ m = 11 then 30
  else 31

/-- Days since 1970-01-01 of the civil date `y-m-d` (Hinnant's algorithm). -/
def daysFromCivil (y : Int) (m d : Nat) : Int :=
  let y' := y - (if m ≤ 2 then 1 else 0)
  let era := y'.ediv 400
  let yoe := y' - era * 400
  let mp : Int := if 2 < m then (m : Int) - 3 else (m : Int) + 9
  let doy := (153 * mp + 2).ediv 5 + (d : Int) - 1
  let doe := yoe * 365 + yoe.ediv 4 - yoe.ediv 100 + doy
  era * 146097 + doe - 719468

/-- Civil date `(y, m, d)` of a day count since 1970-01-01 (Hinnant's algorithm). -/
def civilFromDays (z0 : Int) : Int × Nat × Nat :=
  let z := z0 + 719468
  let era := z.ediv 146097
  let doe := z - era * 146097
  let yoe := (doe - doe.ediv 1460 + doe.ediv 36524 - doe.ediv 146096).ediv 365
  let y := yoe + era * 400
  let doy := doe - (365 * yoe + yoe.ediv 4 - yoe.ediv 100)
  let mp := (5 * doy + 2).ediv 153
  let d := (doy - (153 * mp + 2).ediv 5 + 1).toNat
  let m := (if mp < 10 then mp + 3 else mp - 9).toNat
  (y + (if m ≤ 2 then 1 else 0), m, d)

/-- A naive or UTC timestamp with minute precision (Python `datetime` as used here). -/
structure DateTime where
  year : Int
  month : Nat
  day : Nat
  hour : Nat
  minute : Nat
  deriving DecidableEq, Repr

/-- Minutes since 1970-01-01 00:00 of a timestamp. -/
def DateTime.toMinutes (dt : DateTime) : Int :=
  daysFromCivil dt.year dt.month dt.day * 1440 + dt.hour * 60 + dt.minute

/-- The timestamp for a count of minutes since 1970-01-01 00:00. -/
def ofMinutes (z : Int) : DateTime :=
  let d := z.ediv 1440
  let r := (z.emod 1440).toNat
  let c := civilFromDays d
  ⟨c.1, c.2.1, c.2.2, r / 60, r % 60⟩

/-! ## US Central daylight-saving rule

Models the `pytz` `US/Central` zone for the current (post-2007) rule:
daylight saving runs from the second Sunday of March, 02:00 local (clocks
jump to 03:00), to the first Sunday of November, 02:00 CDT (01:00 CST).
`localize` with its default `is_dst=False` resolves both the nonexistent
spring-forward hour and the ambiguous fall-back hour to standard time, so
a naive time gets the CDT offset exactly when it is at or after 03:00 on
the spring transition day and strictly before 01:00 on the fall one. -/

/-- Day of week of a day count since 1970-01-01 (0 = Sunday). -/
def dayOfWeek (z : Int) : Int := (z + 4).emod 7

/-- First Sunday on or after day `z`. -/
def firstSundayOnOrAfter (z : Int) : Int := z + (7 - dayOfWeek z).emod 7

/-- Minutes-since-epoch of the instant naive local clocks first show CDT
(second Sunday of March, 03:00). -/
def dstStartMinutes (y : Int) : Int :=
  (firstSundayOnOrAfter (daysFromCivil y 3 1) + 7) * 1440 + 180

/-- Minutes-since-epoch of the naive local instant from which `is_dst=False`
resolves to CST again (first Sunday of November, 01:00). -/
def dstEndMinutes (y : Int) : Int :=
  firstSundayOnOrAfter (daysFromCivil y 11 1) * 1440 + 60

/-- Whether `pytz`'s `US/Central.localize` (default `is_dst=False`) gives the
naive timestamp the CDT (UTC-5) offset rather than CST (UTC-6). -/
def isCDT (dt : DateTime) : Bool :=
  dstStartMinutes dt.year ≤ dt.toMinutes && dt.toMinutes < dstEndMinutes dt.year

/-- `central_tz.localize(naive).astimezone(pytz.UTC)`: interpret a naive
timestamp as US Central and convert to UTC. -/
def centralToUTC (dt : DateTime) : DateTime :=
  ofMinutes (dt.toMinutes + (if isCDT dt then 300 else 360))

/-! ## The date-pattern regex

`re.search(r'[a-zA-Z]{3} [a-zA-Z]{3} \d{2}, \d{1,2}:\d{2}[APM]{2}', s)`:
leftmost match, greedy 1-2 digit hour. -/

/-- A character of the regex class `[APM]`. -/
def isAPM (c : Char) : Bool := c = 'A' || c = 'P' || c = 'M'

/-- Match `:\d{2}[APM]{2}` at the head of the list. -/
def tailAfterColon : List Char → Bool
  | ':' :: m1 :: m2 :: p1 :: p2 :: _ =>
    isAsciiDigit m1 && isAsciiDigit m2 && isAPM p1 && isAPM p2
  | _ => false

/-- Match `\d{1,2}:\d{2}[APM]{2}` at the head, returning the matched length.
The two-digit hour is tried first (greedy `\d{1,2}`). -/
def hourTimeLen : List Char → Option Nat
  | c1 :: c2 :: rest =>
    if isAsciiDigit c1 && isAsciiDigit c2 && tailAfterColon rest then some 7
    else if isAsciiDigit c1 && tailAfterColon (c2 :: rest) then some 6
    else none
  | _ => none

/-- Match the full date pattern at the head, returning the matched length. -/
def matchPatLen (cs : List Char) : Option Nat :=
  match cs with
  | a1 :: a2 :: a3 :: ' ' :: b1 :: b2 :: b3 :: ' ' :: d1 :: d2 :: ',' :: ' ' :: rest =>
    if isAsciiAlpha a1 && isAsciiAlpha a2 && isAsciiAlpha a3 &&
       isAsciiAlpha b1 && isAsciiAlpha b2 && isAsciiAlpha b3 &&
       isAsciiDigit d1 && isAsciiDigit d2 then
      match hourTimeLen rest with
      | some n => some (12 + n)
      | none => none
    else none
  | _ => none

/-- Leftmost match of the date pattern: the matched substring, if any. -/
def searchPat : List Char → Option (List Char)
  | [] => none
  | c :: cs =>
    match matchPatLen (c :: cs) with
    | some n => some ((c :: cs).take n)
    | none => searchPat cs

/-- Step 2 of `parse_auction_date`: the regex match if there is one, the whole
string otherwise. -/
def extractDate (cs : List Char) : List Char := (searchPat cs).getD cs

/-- Step 1 of `parse_auction_date`:
`date_str.replace("am", "AM").replace("pm", "PM")`. -/
def normalizeMeridiem (cs : List Char) : List Char :=
  replace2 'p' 'm' 'P' 'M' (replace2 'a' 'm' 'A' 'M' cs)

/-! ## `strptime` with the fixed layout `"%Y %a %b %d, %I:%M%p"`

Each directive is modelled by the exact regex alternation CPython's
`_strptime` uses for it, matched case-insensitively for names; whitespace
in the layout matches one-or-more whitespace characters; the whole string
must be consumed; the resulting date is range-checked as `datetime.__init__`
does. -/

/-- Layout whitespace: `\s+`. -/
def skipWs1 : List Char → Option (List Char)
  | c :: cs => if isWsChar c then some (cs.dropWhile isWsChar) else none
  | [] => none

/-- A literal layout character. -/
def litChar (c : Char) : List Char → Option (List Char)
  | x :: cs => if x = c then some cs else none
  | [] => none

/-- `%Y`: exactly four digits. -/
def parse4Digits : List Char → Option (Nat × List Char)
  | c1 :: c2 :: c3 :: c4 :: rest =>
    if isAsciiDigit c1 && isAsciiDigit c2 && isAsciiDigit c3 && isAsciiDigit c4 then
      some (((digitVal c1 * 10 + digitVal c2) * 10 + digitVal c3) * 10 + digitVal c4, rest)
    else none
  | _ => none

/-- Lowercase weekday abbreviations known to `%a`. -/
def weekdayAbbrevs : List (List Char) :=
  [['m','o','n'], ['t','u','e'], ['w','e','d'], ['t','h','u'],
   ['f','r','i'], ['s','a','t'], ['s','u','n']]

/-- Membership test on the abbreviation lists. -/
def memAbbrev : List (List Char) → List Char → Bool
  | [], _ => false
  | w :: ws, l => if w = l then true else memAbbrev ws l

/-- `%a`: a weekday abbreviation, case-insensitively.  Its value is parsed
but ignored (CPython does not check it against the date). -/
def parseWeekday : List Char → Option (List Char)
  | c1 :: c2 :: c3 :: rest =>
    if memAbbrev weekdayAbbrevs [c1.toLower, c2.toLower, c3.toLower] then some rest else none
  | _ => none

/-- Lowercase month abbreviations known to `%b`, in month order. -/
def monthAbbrevs : List (List Char) :=
  [['j','a','n'], ['f','e','b'], ['m','a','r'], ['a','p','r'],
   ['m','a','y'], ['j','u','n'], ['j','u','l'], ['a','u','g'],
   ['s','e','p'], ['o','c','t'], ['n','o','v'], ['d','e','c']]

/-- One-based position of an abbreviation in a list. -/
def abbrevIndex : List (List Char) → Nat → List Char → Option Nat
  | [], _, _ => none
  | w :: ws, i, l => if w = l then some i else abbrevIndex ws (i + 1) l

/-- `%b`: a month abbreviation, case-insensitively, giving the month number. -/
def parseMonth : List Char → Option (Nat × List Char)
  | c1 :: c2 :: c3 :: rest =>
    match abbrevIndex monthAbbrevs 1 [c1.toLower, c2.toLower, c3.toLower] with
    | some i => some (i, rest)
    | none => none
  | _ => none

/-- `%d`: the alternation `3[01]|[12]\d|0[1-9]|[1-9]`. -/
def parseDay : List Char → Option (Nat × List Char)
  | c1 :: c2 :: rest =>
    if c1 = '3' && (c2 = '0' || c2 = '1') then some (30 + digitVal c2, rest)
    else if (c1 = '1' || c1 = '2') && isAsciiDigit c2 then
      some (digitVal c1 * 10 + digitVal c2, rest)
    else if c1 = '0' && ('1' ≤ c2 && c2 ≤ '9') then some (digitVal c2, rest)
    else if '1' ≤ c1 && c1 ≤ '9' then some (digitVal c1, c2 :: rest)
    else none
  | [c1] => if '1' ≤ c1 && c1 ≤ '9' then some (digitVal c1, []) else none
  | [] => none

/-- `%I`: the alternation `1[0-2]|0[1-9]|[1-9]`. -/
def parseHour12 : List Char → Option (Nat × List Char)
  | c1 :: c2 :: rest =>
    if c1 = '1' && ('0' ≤ c2 && c2 ≤ '2') then some (10 + digitVal c2, rest)
    else if c1 = '0' && ('1' ≤ c2 && c2 ≤ '9') then some (digitVal c2, rest)
    else if '1' ≤ c1 && c1 ≤ '9' then some (digitVal c1, c2 :: rest)
    else none
  | [c1] => if '1' ≤ c1 && c1 ≤ '9' then some (digitVal c1, []) else none
  | [] => none

/-- `%M`: the alternation `[0-5]\d|\d`. -/
def parseMinute : List Char → Option (Nat × List Char)
  | c1 :: c2 :: rest =>
    if ('0' ≤ c1 && c1 ≤ '5') && isAsciiDigit c2 then
      some (digitVal c1 * 10 + digitVal c2, rest)
    else if isAsciiDigit c1 then some (digitVal c1, c2 :: rest)
    else none
  | [c1] => if isAsciiDigit c1 then some (digitVal c1, []) else none
  | [] => none

/-- `%p`: `AM` or `PM`, case-insensitively; `true` means PM. -/
def parseMeridiem : List Char → Option (Bool × List Char)
  | p1 :: p2 :: rest =>
    if p1.toLower = 'a' && p2.toLower = 'm' then some (false, rest)
    else if p1.toLower = 'p' && p2.toLower = 'm' then some (true, rest)
    else none
  | _ => none

/-- Combine `%I` and `%p` into a 24-hour value, as `_strptime` does. -/
def to24 (h12 : Nat) (pm : Bool) : Nat :=
  if h12 = 12 then (if pm then 12 else 0) else (if pm then h12 + 12 else h12)

/-- The layout after the year and its following whitespace: weekday, month,
day, comma, `hour:minute`, meridiem, end of string, then the range checks
performed by the `datetime` constructor. -/
def strptimeAfterYear (y : Nat) (cs : List Char) : Option DateTime := do
  let r3 ← parseWeekday cs
  let r4 ← skipWs1 r3
  let (mo, r5) ← parseMonth r4
  let r6 ← skipWs1 r5
  let (d, r7) ← parseDay r6
  let r8 ← litChar ',' r7
  let r9 ← skipWs1 r8
  let (h12, r10) ← parseHour12 r9
  let r11 ← litChar ':' r10
  let (mi, r12) ← parseMinute r11
  let (pm, r13) ← parseMeridiem r12
  if r13 = [] ∧ 1 ≤ y ∧ d ≤ daysInMonth (y : Int) mo then
    some ⟨(y : Int), mo, d, to24 h12 pm, mi⟩
  else none

/-- `datetime.strptime(s, "%Y %a %b %d, %I:%M%p")`. -/
def strptimeFixed (cs : List Char) : Option DateTime := do
  let (y, r1) ← parse4Digits cs
  let r2 ← skipWs1 r1
  strptimeAfterYear y r2

/-- Modelled from the spec: conformance of the string obtained after
meridiem normalization and pattern extraction (steps 1-2) to the fixed
layout of step 4 — abbreviated weekday, abbreviated month, day, comma,
`hour:minute`, meridiem, with nothing left over — judged for the current
year `y` (the year step 3 prepends; "unparseable date/time" includes a day
out of range for the month of that year, and the four-digit year directive
also requires `1 ≤ y ≤ 9999`, which the theorems carry as a hypothesis). -/
def specConformsLayout (y : Nat) (cs0 : List Char) : Bool :=
  let cs := cs0.dropWhile isWsChar
  match parseWeekday cs with
  | none => false
  | some r1 =>
    match skipWs1 r1 with
    | none => false
    | some r2 =>
      match parseMonth r2 with
      | none => false
      | some (mo, r3) =>
        match skipWs1 r3 with
        | none => false
        | some r4 =>
          match parseDay r4 with
          | none => false
          | some (d, r5) =>
            match litChar ',' r5 with
            | none => false
            | some r6 =>
              match skipWs1 r6 with
              | none => false
              | some r7 =>
                match parseHour12 r7 with
                | none => false
                | some (_, r8) =>
                  match litChar ':' r8 with
                  | none => false
                  | some r9 =>
                    match parseMinute r9 with
                    | none => false
                    | some (_, r10) =>
                      match parseMeridiem r10 with
                      | none => false
                      | some (_, r11) =>
                        decide (r11 = [] ∧ 1 ≤ y ∧ d ≤ daysInMonth (y : Int) mo)

/-- Errors of the pipeline (section 7 of the spec's taxonomy, plus the
`KeyError` a row with a missing required column raises). -/
inductive PErr
  | directoryNotFound
  | keyMissing
  | parseError
  | validationError
  deriving DecidableEq, Repr

instance {e a : Type} [DecidableEq e] [DecidableEq a] : DecidableEq (Except e a) := fun x y =>
  match x, y with
  | .error u, .error v =>
    if h : u = v then .isTrue (by rw [h]) else .isFalse (by simp [h])
  | .ok u, .ok v =>
    if h : u = v then .isTrue (by rw [h]) else .isFalse (by simp [h])
  | .error _, .ok _ => .isFalse (by simp)
  | .ok _, .error _ => .isFalse (by simp)

/-- `DataProcessor.parse_auction_date`, with the call `datetime.now().year`
made explicit as the `currentYear` argument. -/
def parse_auction_date (currentYear : Nat) (s : List Char) : Except PErr DateTime :=
  let clean := extractDate (normalizeMeridiem s)
  match strptimeFixed (renderNat currentYear ++ ' ' :: clean) with
  | some naive => .ok (centralToUTC naive)
  | none => .error .parseError

/-! ## Domain types -/

/-- The `Transmission` enumeration. -/
inductive Transmission
  | automatic
  | manual
  | unknown
  deriving DecidableEq, Repr

/-- The enumeration members with their `.value` strings, in declaration order. -/
def transmissionValues : List (Transmission × List Char) :=
  [(.automatic, "Automatic".data), (.manual, "Manual".data), (.unknown, "Unknown".data)]

/-- First member whose value compares equal, lowercased, to the cleaned input. -/
def findMember : List (Transmission × List Char) → List Char → Option Transmission
  | [], _ => none
  | p :: ps, l =>
    if p.2.map Char.toLower = l then some p.1 else findMember ps l

/-- `Transmission.from_str`.  `none` models Python `None`; both `None` and
the empty string are falsy, so `clean_val` is empty for them. -/
def Transmission.fromStr (value : Option (List Char)) : Transmission :=
  let cleanVal : List Char :=
    match value with
    | none => []
    | some s => if s = [] then [] else trimChars s
  if cleanVal = [] then .unknown
  else
    match findMember transmissionValues (cleanVal.map Char.toLower) with
    | some m => m
    | none => .unknown

/-- The `Engine` record (pydantic dataclass; both fields plain values). -/
structure Engine where
  description : List Char
  cylinders : Option (List Char)
  deriving DecidableEq, Repr

/-- The `Vehicle` record. -/
structure Vehicle where
  year : Int
  make : List Char
  model : List Char
  vin : List Char
  engine : Engine
  transmission : Transmission
  deriving DecidableEq, Repr

/-- Value of the digits of a numeral, most significant first. -/
def natOfDigits (ds : List Char) : Nat := ds.foldl (fun a c => a * 10 + digitVal c) 0

/-- Python `int(str)` (and pydantic's lax string-to-int coercion): optional
surrounding whitespace, optional sign, a nonempty run of digits. -/
def pyIntOfChars (s : List Char) : Option Int :=
  match trimChars s with
  | '-' :: ds => if ds ≠ [] ∧ ds.all isAsciiDigit then some (-(natOfDigits ds : Int)) else none
  | '+' :: ds => if ds ≠ [] ∧ ds.all isAsciiDigit then some (natOfDigits ds : Int) else none
  | ds => if ds ≠ [] ∧ ds.all isAsciiDigit then some (natOfDigits ds : Int) else none

/-- The `year` argument handed to the `Vehicle` constructor: either already
an integer or a raw string pydantic must coerce. -/
def yearToInt : Int ⊕ List Char → Option Int
  | .inl i => some i
  | .inr s => pyIntOfChars s

/-- `Vehicle(...)` through its pydantic validation: fails exactly when the
year value cannot be interpreted as an integer. -/
def mkVehicle (year : Int ⊕ List Char) (make model vin : List Char)
    (engine : Engine) (transmission : Transmission) : Except PErr Vehicle :=
  match yearToInt year with
  | some i => .ok ⟨i, make, model, vin, engine, transmission⟩
  | none => .error .validationError

/-! ## File processing -/

/-- One CSV data row as `csv.DictReader` yields it: an association of column
names to field values (a column missing from the file is absent). -/
def Row := List (List Char × List Char)

/-- `row[name]` / `row.get(name)`. -/
def rowGet (r : Row) (name : List Char) : Option (List Char) :=
  match r with
  | [] => none
  | p :: ps => if p.1 = name then some p.2 else rowGet ps name

/-- One `(utc_date, location, vehicle)` triple of a per-file result list. -/
structure Triple where
  date_utc : DateTime
  loc : List Char
  veh : Vehicle
  deriving DecidableEq, Repr

/-- An `Auction`: grouping key fields plus the accumulated vehicles. -/
structure Auction where
  date_utc : DateTime
  location : List Char
  vehicles : List Vehicle
  deriving DecidableEq, Repr

/-- The grouping key of an auction. -/
def Auction.akey (a : Auction) : DateTime × List Char := (a.date_utc, a.location)

/-- The grouping key of a triple. -/
def Triple.tkey (t : Triple) : DateTime × List Char := (t.date_utc, t.loc)

/-- Lift an optional value to the pipeline's error monad. -/
def req (e : PErr) : Option (List Char) → Except PErr (List Char)
  | some v => .ok v
  | none => .error e

/-- `int(...)` raising `ValueError` on a non-convertible value. -/
def reqInt : Option Int → Except PErr Int
  | some i => .ok i
  | none => .error .validationError

/-- The body of `process_file`'s comprehension for one row, in the source's
evaluation order: `row['Auction Date']` parsed, `row['Branch Name']`,
then the `Vehicle` keywords (`int(row['Year'])`, `row['Make']`,
`row['Model']`, `row['Vin#']`, `Engine(row['Engine'],
row.get('Cylinders', 'N/A'))`, `Transmission.from_str(row.get('Transmission
Type', ''))`). -/
def processRow (currentYear : Nat) (row : Row) : Except PErr Triple := do
  let dateStr ← req .keyMissing (rowGet row "Auction Date".data)
  let d ← parse_auction_date currentYear dateStr
  let loc ← req .keyMissing (rowGet row "Branch Name".data)
  let yearStr ← req .keyMissing (rowGet row "Year".data)
  let yearInt ← reqInt (pyIntOfChars yearStr)
  let mk ← req .keyMissing (rowGet row "Make".data)
  let md ← req .keyMissing (rowGet row "Model".data)
  let vin ← req .keyMissing (rowGet row "Vin#".data)
  let engDesc ← req .keyMissing (rowGet row "Engine".data)
  let cyl := (rowGet row "Cylinders".data).getD "N/A".data
  let trans := Transmission.fromStr (some ((rowGet row "Transmission Type".data).getD []))
  let veh ← mkVehicle (.inl yearInt) mk md vin ⟨engDesc, some cyl⟩ trans
  pure ⟨d, loc, veh⟩

/-- `DataProcessor.process_file` on the parsed rows of one file: one triple
per data row, in file order, failing on the first bad row. -/
def processFile (currentYear : Nat) : List Row → Except PErr (List Triple)
  | [] => .ok []
  | r :: rs => do
    let t ← processRow currentYear r
    let ts ← processFile currentYear rs
    pure (t :: ts)

/-! ## Pipeline -/

/-- What `run_pipeline` sees of the filesystem: whether the directory
exists, and the parsed rows of each `*.csv` file in directory-listing
order. -/
structure PipelineEnv where
  dirExists : Bool
  csvFiles : List (List Row)

/-- Process every file (results in file order; the thread pool's results are
gathered in task submission order, and the first failure aborts the whole
run with no partial results). -/
def processAll (currentYear : Nat) : List (List Row) → Except PErr (List (List Triple))
  | [] => .ok []
  | f :: fs => do
    let ts ← processFile currentYear f
    let rest ← processAll currentYear fs
    pure (ts :: rest)

/-- The merge step's treatment of one triple: if an auction with its key
already exists, append the vehicle to that auction's list, otherwise add a
fresh auction at the end (Python dicts preserve insertion order). -/
def insertTriple : List Auction → Triple → List Auction
  | [], t => [{ date_utc := t.date_utc, location := t.loc, vehicles := [t.veh] }]
  | a :: as, t =>
    if a.akey = t.tkey then
      { a with vehicles := a.vehicles ++ [t.veh] } :: as
    else
      a :: insertTriple as t

/-- The merge loop of `run_pipeline` over the concatenated per-file results,
returning `list(auctions.values())`. -/
def mergeTriples (ts : List Triple) : List Auction := ts.foldl insertTriple []

/-- `run_pipeline`: directory check, per-file processing, merge. -/
def run_pipeline (currentYear : Nat) (env : PipelineEnv) : Except PErr (List Auction) :=
  if env.dirExists then
    match processAll currentYear env.csvFiles with
    | .ok results => .ok (mergeTriples results.flatten)
    | .error e => .error e
  else
    .error .directoryNotFound

/-- The vehicles accumulated under key `k` in a list of auctions. -/
def vehAt (k : DateTime × List Char) (as : List Auction) : List Vehicle :=
  ((as.filter (fun a => a.akey = k)).map Auction.vehicles).flatten

/-- The number of vehicles across a list of auctions. -/
def totalVeh (as : List Auction) : Nat := (as.map (fun a => a.vehicles.length)).sum

/-! ## Concrete sample data for witnesses -/

/-- A CSV row without the optional "Cylinders" / "Transmission Type" columns. -/
def sampleRow1 : Row :=
  [("Auction Date".data, "Mon Dec 01, 8:30am CST".data),
   ("Branch Name".data, "Chicago".data), ("Year".data, "2020".data),
   ("Make".data, "Audi".data), ("Model".data, "A4".data),
   ("Vin#".data, "VIN1".data), ("Engine".data, "V6".data)]

/-- A second row with the same auction date and location but another VIN. -/
def sampleRow2 : Row :=
  [("Auction Date".data, "Mon Dec 01, 8:30am CST".data),
   ("Branch Name".data, "Chicago".data), ("Year".data, "2021".data),
   ("Make".data, "BMW".data), ("Model".data, "X3".data),
   ("Vin#".data, "VIN2".data), ("Engine".data, "V8".data)]

/-- A row whose "Year" value is not integer-convertible. -/
def badRow : Row :=
  [("Auction Date".data, "Mon Dec 01, 8:30am CST".data),
   ("Branch Name".data, "Chicago".data), ("Year".data, "STARY".data),
   ("Make".data, "Audi".data), ("Model".data, "A4".data),
   ("Vin#".data, "VIN9".data), ("Engine".data, "V6".data)]

/-- The UTC instant of "Mon Dec 01, 8:30am" US Central in 2025. -/
def sampleDT : DateTime := ⟨2025, 12, 1, 14, 30⟩

/-- The vehicle of `sampleRow1`. -/
def sampleVeh1 : Vehicle :=
  ⟨2020, "Audi".data, "A4".data, "VIN1".data, ⟨"V6".data, some "N/A".data⟩, .unknown⟩

/-- The vehicle of `sampleRow2`. -/
def sampleVeh2 : Vehicle :=
  ⟨2021, "BMW".data, "X3".data, "VIN2".data, ⟨"V8".data, some "N/A".data⟩, .unknown⟩

/-- The triple produced from `sampleRow1`. -/
def sampleTriple1 : Triple := ⟨sampleDT, "Chicago".data, sampleVeh1⟩

/-- The triple produced from `sampleRow2`. -/
def sampleTriple2 : Triple := ⟨sampleDT, "Chicago".data, sampleVeh2⟩

/-- Per-file results of the sample environment. -/
def sampleResults : List (List Triple) := [[sampleTriple1, sampleTriple2]]

/-- An existing directory holding one CSV file with the two sample rows. -/
def sampleEnv : PipelineEnv := ⟨true, [[sampleRow1, sampleRow2]]⟩

/-- The shared grouping key of the two sample rows. -/
def sampleKey : DateTime × List Char := (sampleDT, "Chicago".data)

/-- An existing directory holding one CSV file with the bad-year row. -/
def badEnv : PipelineEnv := ⟨true, [[badRow]]⟩

/-! ## Merge-step lemmas -/

theorem vehAt_nil (k : DateTime × List Char) : vehAt k [] = [] := rfl

theorem vehAt_cons (k : DateTime × List Char) (a : Auction) (as : List Auction) :
    vehAt k (a :: as) = (if a.akey = k then a.vehicles else []) ++ vehAt k as := by
  by_cases h : a.akey = k <;> simp [vehAt, h]

theorem vehAt_eq_nil (k : DateTime × List Char) (as : List Auction)
    (h : k ∉ as.map Auction.akey) : vehAt k as = [] := by
  induction as with
  | nil => rfl
  | cons a as ih =>
    rw [vehAt_cons]
    simp only [List.map_cons, List.mem_cons] at h
    push_neg at h
    rw [if_neg (fun hh => h.1 hh.symm), ih h.2]
    rfl

theorem insert_map_akey (as : List Auction) (t : Triple) :
    (insertTriple as t).map Auction.akey =
      if t.tkey ∈ as.map Auction.akey then as.map Auction.akey
      else as.map Auction.akey ++ [t.tkey] := by
  induction as with
  | nil => simp [insertTriple, Auction.akey, Triple.tkey]
  | cons a as ih =>
    by_cases h : a.akey = t.tkey
    · have hup : Auction.akey { a with vehicles := a.vehicles ++ [t.veh] } = a.akey := rfl
      simp [insertTriple, if_pos h, hup, h]
    · by_cases hm : t.tkey ∈ as.map Auction.akey
      · simp [insertTriple, if_neg h, ih, hm, List.mem_cons]
      · have hne : ¬ t.tkey = a.akey := fun hh => h hh.symm
        simp [insertTriple, if_neg h, ih, hm, List.mem_cons, hne]

theorem insert_nodup (as : List Auction) (t : Triple)
    (h : (as.map Auction.akey).Nodup) :
    ((insertTriple as t).map Auction.akey).Nodup := by
  rw [insert_map_akey]
  by_cases hm : t.tkey ∈ as.map Auction.akey
  · rwa [if_pos hm]
  · rw [if_neg hm]
    simp [List.nodup_append, h, hm]

theorem insert_vehAt (as : List Auction) (t : Triple) (k : DateTime × List Char)
    (hnd : (as.map Auction.akey).Nodup) :
    vehAt k (insertTriple as t) =
      vehAt k as ++ (if t.tkey = k then [t.veh] else []) := by
  induction as with
  | nil =>
    rw [show insertTriple [] t = [⟨t.date_utc, t.loc, [t.veh]⟩] from rfl,
        vehAt_cons, vehAt_nil]
    have hak : Auction.akey ⟨t.date_utc, t.loc, [t.veh]⟩ = t.tkey := rfl
    by_cases h : t.tkey = k
    · simp [hak, h]
    · simp [hak, h]
  | cons a as ih =>
    simp only [List.map_cons, List.nodup_cons] at hnd
    by_cases h : a.akey = t.tkey
    · have hup : Auction.akey { a with vehicles := a.vehicles ++ [t.veh] } = a.akey := rfl
      rw [insertTriple, if_pos h, vehAt_cons, vehAt_cons, hup]
      by_cases hk : a.akey = k
      · have htk : t.tkey = k := h ▸ hk
        have hnil : vehAt k as = [] := by
          apply vehAt_eq_nil
          intro hmem
          exact hnd.1 (by rwa [hk])
        simp [hk, htk, hnil]
      · have htk : ¬ t.tkey = k := fun hh => hk (h.trans hh)
        simp [hk, htk]
    · rw [insertTriple, if_neg h, vehAt_cons, vehAt_cons, ih hnd.2]
      simp [List.append_assoc]

theorem foldl_vehAt (ts : List Triple) :
    ∀ (acc : List Auction), (acc.map Auction.akey).Nodup → ∀ k,
      vehAt k (ts.foldl insertTriple acc) =
        vehAt k acc ++ (ts.filter (fun t => t.tkey = k)).map Triple.veh := by
  induction ts with
  | nil => intro acc _ k; simp
  | cons t ts ih =>
    intro acc hnd k
    rw [List.foldl_cons, ih (insertTriple acc t) (insert_nodup acc t hnd) k,
        insert_vehAt acc t k hnd]
    by_cases h : t.tkey = k <;> simp [h]

theorem foldl_akey_mem (ts : List Triple) :
    ∀ (acc : List Auction) (k : DateTime × List Char),
      k ∈ (ts.foldl insertTriple acc).map Auction.akey ↔
        k ∈ acc.map Auction.akey ∨ k ∈ ts.map Triple.tkey := by
  induction ts with
  | nil => intro acc k; simp
  | cons t ts ih =>
    intro acc k
    rw [List.foldl_cons, ih (insertTriple acc t) k, insert_map_akey]
    by_cases hm : t.tkey ∈ acc.map Auction.akey
    · rw [if_pos hm]
      simp only [List.map_cons, List.mem_cons]
      constructor
      · rintro (h | h)
        · exact Or.inl h
        · exact Or.inr (Or.inr h)
      · rintro (h | h | h)
        · exact Or.inl h
        · exact Or.inl (h ▸ hm)
        · exact Or.inr h
    · rw [if_neg hm]
      simp only [List.mem_append, List.mem_singleton, List.map_cons, List.mem_cons]
      tauto

theorem foldl_nodup (ts : List Triple) :
    ∀ (acc : List Auction), (acc.map Auction.akey).Nodup →
      ((ts.foldl insertTriple acc).map Auction.akey).Nodup := by
  induction ts with
  | nil => intro acc h; simpa using h
  | cons t ts ih =>
    intro acc hnd
    rw [List.foldl_cons]
    exact ih _ (insert_nodup acc t hnd)

theorem foldl_nonempty (ts : List Triple) :
    ∀ (acc : List Auction), (∀ a ∈ acc, a.vehicles ≠ []) →
      ∀ a ∈ ts.foldl insertTriple acc, a.vehicles ≠ [] := by
  induction ts with
  | nil => intro acc h; simpa using h
  | cons t ts ih =>
    intro acc hacc
    rw [List.foldl_cons]
    apply ih
    intro a ha
    clear ih
    induction acc with
    | nil =>
      simp only [insertTriple, List.mem_singleton] at ha
      subst ha; simp
    | cons b acc ihb =>
      rw [insertTriple] at ha
      by_cases h : b.akey = t.tkey
      · rw [if_pos h] at ha
        rcases List.mem_cons.mp ha with h1 | h1
        · subst h1; simp
        · exact hacc a (List.mem_cons_of_mem _ h1)
      · rw [if_neg h] at ha
        rcases List.mem_cons.mp ha with h1 | h1
        · exact h1 ▸ hacc b (List.mem_cons_self _ _)
        · exact ihb (fun c hc => hacc c (List.mem_cons_of_mem _ hc)) h1

theorem insert_totalVeh (as : List Auction) (t : Triple) :
    totalVeh (insertTriple as t) = totalVeh as + 1 := by
  induction as with
  | nil => simp [insertTriple, totalVeh]
  | cons a as ih =>
    by_cases h : a.akey = t.tkey
    · simp [insertTriple, if_pos h, totalVeh]
      omega
    · simp only [insertTriple, if_neg h, totalVeh, List.map_cons, List.sum_cons]
      simp only [totalVeh] at ih
      omega

theorem foldl_totalVeh (ts : List Triple) :
    ∀ (acc : List Auction),
      totalVeh (ts.foldl insertTriple acc) = totalVeh acc + ts.length := by
  induction ts with
  | nil => intro acc; simp
  | cons t ts ih =>
    intro acc
    rw [List.foldl_cons, ih, insert_totalVeh]
    simp; omega

theorem filter_akey_of_nodup (as : List Auction) (k : DateTime × List Char)
    (hnd : (as.map Auction.akey).Nodup) :
    as.filter (fun a => a.akey = k) =
      if k ∈ as.map Auction.akey then [⟨k.1, k.2, vehAt k as⟩] else [] := by
  induction as with
  | nil => simp
  | cons a as ih =>
    simp only [List.map_cons, List.nodup_cons] at hnd
    by_cases h : a.akey = k
    · have hnotin : k ∉ as.map Auction.akey := h ▸ hnd.1
      have hfil : as.filter (fun a => a.akey = k) = [] := by
        rw [ih hnd.2, if_neg hnotin]
      have hveh : vehAt k (a :: as) = a.vehicles := by
        rw [vehAt_cons, if_pos h, vehAt_eq_nil k as hnotin, List.append_nil]
      have hmem : k ∈ (a :: as).map Auction.akey := by
        rw [List.map_cons]
        exact List.mem_cons.mpr (Or.inl h.symm)
      rw [if_pos hmem, hveh, List.filter_cons, if_pos (by simp [h]), hfil]
      obtain ⟨d, l, v⟩ := a
      obtain ⟨k1, k2⟩ := k
      have h1 : d = k1 := congrArg Prod.fst h
      have h2 : l = k2 := congrArg Prod.snd h
      simp [h1, h2]
    · have hmem2 : (k ∈ (a :: as).map Auction.akey) ↔ k ∈ as.map Auction.akey := by
        rw [List.map_cons, List.mem_cons]
        constructor
        · rintro (hh | hh)
          · exact absurd hh.symm h
          · exact hh
        · exact Or.inr
      rw [List.filter_cons, if_neg (by simp [h]), ih hnd.2]
      by_cases hm : k ∈ as.map Auction.akey
      · rw [if_pos hm, if_pos (hmem2.mpr hm)]
        rw [vehAt_cons, if_neg h]
        rfl
      · rw [if_neg hm, if_neg (fun hh => hm (hmem2.mp hh))]

/-! ## Date-parser lemmas -/

theorem digitC_isDigit (a : Nat) (h : a ≤ 9) : isAsciiDigit (digitC a) = true := by
  interval_cases a <;> decide

theorem digitVal_digitC (a : Nat) (h : a ≤ 9) : digitVal (digitC a) = a := by
  interval_cases a <;> decide

theorem digitC_not_ws (a : Nat) (h : a ≤ 9) : isWsChar (digitC a) = false := by
  interval_cases a <;> decide

theorem renderNatAux_congr (f1 : Nat) : ∀ (f2 n : Nat), n < f1 → n < f2 →
    renderNatAux f1 n = renderNatAux f2 n := by
  induction f1 with
  | zero => intro f2 n h1 _; omega
  | succ g ih =>
    intro f2 n h1 h2
    cases f2 with
    | zero => omega
    | succ k =>
      by_cases hn : n < 10
      · simp [renderNatAux, hn]
      · simp only [renderNatAux, if_neg hn]
        have hd : n / 10 < n := Nat.div_lt_self (by omega) (by omega)
        congr 1
        exact ih k (n / 10) (by omega) (by omega)

theorem renderNat_eq_rec (n : Nat) : renderNat n =
    if n < 10 then [digitC n] else renderNat (n / 10) ++ [digitC (n % 10)] := by
  by_cases h : n < 10
  · simp [renderNat, renderNatAux, h]
  · simp only [renderNat, renderNatAux, if_neg h]
    congr 1
    exact renderNatAux_congr n (n / 10 + 1) (n / 10)
      (Nat.div_lt_self (by omega) (by omega)) (by omega)

theorem renderNat_four (y : Nat) (h1 : 1000 ≤ y) (h2 : y ≤ 9999) :
    renderNat y = [digitC (y / 1000), digitC (y / 100 % 10),
      digitC (y / 10 % 10), digitC (y % 10)] := by
  have e3 : y / 10 / 10 / 10 = y / 1000 := by omega
  have e2 : y / 10 / 10 = y / 100 := by omega
  rw [renderNat_eq_rec, if_neg (by omega),
      renderNat_eq_rec, if_neg (by omega),
      renderNat_eq_rec, if_neg (by omega),
      renderNat_eq_rec, if_pos (by omega), e3, e2]
  have m2 : y / 100 % 10 = y / 10 / 10 % 10 := by omega
  simp [m2]

theorem renderNat_one (y : Nat) (h : y ≤ 9) : renderNat y = [digitC y] := by
  rw [renderNat_eq_rec, if_pos (by omega)]

theorem renderNat_two (y : Nat) (h1 : 10 ≤ y) (h2 : y ≤ 99) :
    renderNat y = [digitC (y / 10), digitC (y % 10)] := by
  rw [renderNat_eq_rec, if_neg (by omega), renderNat_one (y / 10) (by omega)]
  rfl

theorem renderNat_three (y : Nat) (h1 : 100 ≤ y) (h2 : y ≤ 999) :
    renderNat y = [digitC (y / 100), digitC (y / 10 % 10), digitC (y % 10)] := by
  rw [renderNat_eq_rec, if_neg (by omega), renderNat_two (y / 10) (by omega) (by omega)]
  have e2 : y / 10 / 10 = y / 100 := by omega
  have m2 : y / 10 % 10 = y / 10 % 10 := rfl
  rw [e2]
  rfl

theorem renderNat_ne_nil (n : Nat) : renderNat n ≠ [] := by
  rw [renderNat_eq_rec]
  by_cases h : n < 10 <;> simp [h]

theorem renderNat_length_succ (n : Nat) (h : 10 ≤ n) :
    (renderNat n).length = (renderNat (n / 10)).length + 1 := by
  rw [renderNat_eq_rec, if_neg (by omega)]
  simp

theorem renderNat_all_digits : ∀ (f n : Nat) (c : Char),
    c ∈ renderNatAux f n → isAsciiDigit c = true := by
  intro f
  induction f with
  | zero => intro n c hc; simp [renderNatAux] at hc
  | succ g ih =>
    intro n c hc
    rw [renderNatAux] at hc
    by_cases h : n < 10
    · rw [if_pos h] at hc
      rw [List.mem_singleton] at hc
      exact hc ▸ digitC_isDigit n (by omega)
    · rw [if_neg h] at hc
      rcases List.mem_append.mp hc with h1 | h1
      · exact ih (n / 10) c h1
      · rw [List.mem_singleton] at h1
        exact h1 ▸ digitC_isDigit (n % 10) (by omega)

theorem renderNat_digits (n : Nat) (c : Char) (hc : c ∈ renderNat n) :
    isAsciiDigit c = true := renderNat_all_digits (n + 1) n c hc

theorem parse4Digits_render (y : Nat) (h1 : 1000 ≤ y) (h2 : y ≤ 9999)
    (rest : List Char) :
    parse4Digits (renderNat y ++ rest) = some (y, rest) := by
  rw [renderNat_four y h1 h2]
  show parse4Digits (digitC (y / 1000) :: digitC (y / 100 % 10) ::
    digitC (y / 10 % 10) :: digitC (y % 10) :: rest) = some (y, rest)
  rw [parse4Digits]
  rw [if_pos (by
    rw [digitC_isDigit _ (by omega), digitC_isDigit _ (by omega),
        digitC_isDigit _ (by omega), digitC_isDigit _ (by omega)]
    rfl)]
  rw [digitVal_digitC _ (by omega), digitVal_digitC _ (by omega),
      digitVal_digitC _ (by omega), digitVal_digitC _ (by omega)]
  have : ((y / 1000 * 10 + y / 100 % 10) * 10 + y / 10 % 10) * 10 + y % 10 = y := by
    omega
  rw [this]

theorem parse4Digits_fail_snd (a : Char) (b : Char) (cs : List Char)
    (hb : isAsciiDigit b = false) : parse4Digits (a :: b :: cs) = none := by
  match cs with
  | [] => rfl
  | [c] => rfl
  | c :: d :: rest => simp [parse4Digits, hb]

theorem parse4Digits_fail_trd (a b c : Char) (cs : List Char)
    (hc : isAsciiDigit c = false) : parse4Digits (a :: b :: c :: cs) = none := by
  match cs with
  | [] => rfl
  | d :: rest => simp [parse4Digits, hc]

theorem parse4Digits_fail_fth (a b c d : Char) (cs : List Char)
    (hd : isAsciiDigit d = false) : parse4Digits (a :: b :: c :: d :: cs) = none := by
  simp [parse4Digits, hd]

theorem ws_char_cases (c : Char) (h : isWsChar c = true) :
    c = ' ' ∨ c = '\t' ∨ c = '\n' ∨ c = '\r' ∨ c = '\x0b' ∨ c = '\x0c' := by
  simp only [isWsChar, Bool.or_eq_true, decide_eq_true_eq] at h
  tauto

theorem ws_toLower_fix (c : Char) (h : isWsChar c = true) : c.toLower = c := by
  rcases ws_char_cases c h with rfl | rfl | rfl | rfl | rfl | rfl <;> decide

theorem not_ws_of_toLower (c d : Char) (h : c.toLower = d)
    (hd : isWsChar d = false) : isWsChar c = false := by
  cases hb : isWsChar c with
  | false => rfl
  | true =>
    rw [ws_toLower_fix c hb] at h
    subst h
    rw [hd] at hb
    cases hb

theorem memAbbrev_eq (l : List (List Char)) (x : List Char) :
    memAbbrev l x = true ↔ x ∈ l := by
  induction l with
  | nil => simp [memAbbrev]
  | cons w ws ih =>
    rw [memAbbrev]
    by_cases h : w = x
    · simp [h]
    · rw [if_neg h, ih, List.mem_cons]
      constructor
      · exact Or.inr
      · rintro (rfl | hx)
        · exact absurd rfl h
        · exact hx

theorem weekday_head_not_ws (c1 c2 c3 : Char)
    (h : memAbbrev weekdayAbbrevs [c1.toLower, c2.toLower, c3.toLower] = true) :
    isWsChar c1 = false := by
  rw [memAbbrev_eq] at h
  simp only [weekdayAbbrevs, List.mem_cons, List.not_mem_nil, or_false] at h
  rcases h with h | h | h | h | h | h | h <;>
    exact not_ws_of_toLower c1 _ (List.head_eq_of_cons_eq h) (by decide)

theorem abbrevIndex_mem (l : List (List Char)) : ∀ (i0 : Nat) (x : List Char) (i : Nat),
    abbrevIndex l i0 x = some i → x ∈ l := by
  induction l with
  | nil => intro i0 x i h; simp [abbrevIndex] at h
  | cons w ws ih =>
    intro i0 x i h
    rw [abbrevIndex] at h
    by_cases hw : w = x
    · exact hw ▸ List.mem_cons_self _ _
    · rw [if_neg hw] at h
      exact List.mem_cons_of_mem _ (ih (i0 + 1) x i h)

theorem month_head_not_ws (c1 c2 c3 : Char) (i : Nat)
    (h : abbrevIndex monthAbbrevs 1 [c1.toLower, c2.toLower, c3.toLower] = some i) :
    isWsChar c1 = false := by
  have hm := abbrevIndex_mem monthAbbrevs 1 _ i h
  simp only [monthAbbrevs, List.mem_cons, List.not_mem_nil, or_false] at hm
  rcases hm with h' | h' | h' | h' | h' | h' | h' | h' | h' | h' | h' | h' <;>
    exact not_ws_of_toLower c1 _ (List.head_eq_of_cons_eq h') (by decide)

theorem skipWs1_space (cs : List Char) :
    skipWs1 (' ' :: cs) = some (cs.dropWhile isWsChar) := by
  simp [skipWs1, isWsChar]

theorem dropWhile_not_ws (c : Char) (cs : List Char) (h : isWsChar c = false) :
    (c :: cs).dropWhile isWsChar = c :: cs := by
  simp [List.dropWhile, h]

theorem parseWeekday_cons (c1 c2 c3 : Char) (rest : List Char)
    (h : memAbbrev weekdayAbbrevs [c1.toLower, c2.toLower, c3.toLower] = true) :
    parseWeekday (c1 :: c2 :: c3 :: rest) = some rest := by
  simp [parseWeekday, h]

theorem parseMonth_cons (c1 c2 c3 : Char) (rest : List Char) (i : Nat)
    (h : abbrevIndex monthAbbrevs 1 [c1.toLower, c2.toLower, c3.toLower] = some i) :
    parseMonth (c1 :: c2 :: c3 :: rest) = some (i, rest) := by
  simp [parseMonth, h]

theorem parseDay_render2 (d : Nat) (h1 : 1 ≤ d) (h2 : d ≤ 31) (rest : List Char) :
    parseDay (render2 d ++ rest) = some (d, rest) := by
  interval_cases d <;> rfl

theorem parseHour12_one (h12 : Nat) (hh1 : 1 ≤ h12) (hh2 : h12 ≤ 9)
    (c : Char) (rest : List Char) (hc : isAsciiDigit c = false) :
    parseHour12 (digitC h12 :: c :: rest) = some (h12, c :: rest) := by
  have hx : (decide ('0' ≤ c) && decide (c ≤ '2')) = false := by
    by_cases h0 : '0' ≤ c
    · by_cases h2 : c ≤ '2'
      · exfalso
        have hd : isAsciiDigit c = true := by
          simp only [isAsciiDigit, Bool.and_eq_true, decide_eq_true_eq]
          exact ⟨h0, le_trans h2 (by decide)⟩
        rw [hd] at hc
        cases hc
      · simp [h2]
    · simp [h0]
  interval_cases h12 <;> simp [parseHour12, hx, digitVal] <;> rfl

theorem parseHour12_two (h12 : Nat) (hh1 : 1 ≤ h12) (hh2 : h12 ≤ 12)
    (rest : List Char) :
    parseHour12 (render2 h12 ++ rest) = some (h12, rest) := by
  interval_cases h12 <;> rfl

theorem parseMinute_render2 (mi : Nat) (h2 : mi ≤ 59) (rest : List Char) :
    parseMinute (render2 mi ++ rest) = some (mi, rest) := by
  interval_cases mi <;> rfl

theorem parseMeridiem_am (p1 p2 : Char) (rest : List Char)
    (h1 : p1.toLower = 'a') (h2 : p2.toLower = 'm') :
    parseMeridiem (p1 :: p2 :: rest) = some (false, rest) := by
  simp [parseMeridiem, h1, h2]

theorem parseMeridiem_pm (p1 p2 : Char) (rest : List Char)
    (h1 : p1.toLower = 'p') (h2 : p2.toLower = 'm') :
    parseMeridiem (p1 :: p2 :: rest) = some (true, rest) := by
  simp [parseMeridiem, h1, h2]

theorem daysInMonth_le_31 (y : Int) (m : Nat) : daysInMonth y m ≤ 31 := by
  rw [daysInMonth]
  split
  · split <;> omega
  · split <;> omega

theorem litChar_cons (c : Char) (cs : List Char) : litChar c (c :: cs) = some cs := by
  simp [litChar]

theorem parseDay_cons (d : Nat) (h1 : 1 ≤ d) (h2 : d ≤ 31) (rest : List Char) :
    parseDay (digitC (d / 10) :: digitC (d % 10) :: rest) = some (d, rest) :=
  parseDay_render2 d h1 h2 rest

theorem parseHour12_cons (h12 : Nat) (hh1 : 1 ≤ h12) (hh2 : h12 ≤ 12)
    (rest : List Char) :
    parseHour12 (digitC (h12 / 10) :: digitC (h12 % 10) :: rest) = some (h12, rest) :=
  parseHour12_two h12 hh1 hh2 rest

theorem parseMinute_cons (mi : Nat) (h2 : mi ≤ 59) (rest : List Char) :
    parseMinute (digitC (mi / 10) :: digitC (mi % 10) :: rest) = some (mi, rest) :=
  parseMinute_render2 mi h2 rest

/-- The `strptime` tail succeeds on any string in the fixed layout's shape
(weekday and month abbreviations in any letter case, two-digit day, one- or
two-digit hour, two-digit minute, am/pm marker in any letter case) and
returns exactly the encoded naive timestamp. -/
theorem strptimeAfterYear_render (y : Nat) (hy : 1 ≤ y)
    (c1 c2 c3 b1 b2 b3 : Char) (m d h12 mi : Nat) (hh : List Char)
    (p1 p2 : Char) (pm : Bool)
    (hwd : memAbbrev weekdayAbbrevs [c1.toLower, c2.toLower, c3.toLower] = true)
    (hmo : abbrevIndex monthAbbrevs 1 [b1.toLower, b2.toLower, b3.toLower] = some m)
    (hd1 : 1 ≤ d) (hd2 : d ≤ daysInMonth (y : Int) m)
    (hh1 : 1 ≤ h12) (hh2 : h12 ≤ 12)
    (hhr : (hh = [digitC h12] ∧ h12 ≤ 9) ∨ hh = render2 h12)
    (hmi : mi ≤ 59)
    (hp2 : p2.toLower = 'm')
    (hpm : (p1.toLower = 'a' ∧ pm = false) ∨ (p1.toLower = 'p' ∧ pm = true)) :
    strptimeAfterYear y (c1 :: c2 :: c3 :: ' ' :: b1 :: b2 :: b3 :: ' ' ::
        (render2 d ++ ',' :: ' ' :: (hh ++ ':' :: (render2 mi ++ [p1, p2])))) =
      some ⟨(y : Int), m, d, to24 h12 pm, mi⟩ := by
  have hd31 : d ≤ 31 := le_trans hd2 (daysInMonth_le_31 _ _)
  have hb1 : isWsChar b1 = false := month_head_not_ws b1 b2 b3 m hmo
  have hwd' : ∀ rest, parseWeekday (c1 :: c2 :: c3 :: rest) = some rest :=
    fun rest => parseWeekday_cons c1 c2 c3 rest hwd
  have hmon : ∀ rest, parseMonth (b1 :: b2 :: b3 :: rest) = some (m, rest) :=
    fun rest => parseMonth_cons b1 b2 b3 rest m hmo
  have hday : ∀ rest, parseDay (digitC (d / 10) :: digitC (d % 10) :: rest) =
      some (d, rest) := fun rest => parseDay_cons d hd1 hd31 rest
  have hmin : ∀ rest, parseMinute (digitC (mi / 10) :: digitC (mi % 10) :: rest) =
      some (mi, rest) := fun rest => parseMinute_cons mi hmi rest
  have hmer : parseMeridiem (p1 :: p2 :: []) = some (pm, []) := by
    rcases hpm with ⟨hp1, hpmv⟩ | ⟨hp1, hpmv⟩
    · exact hpmv ▸ parseMeridiem_am p1 p2 [] hp1 hp2
    · exact hpmv ▸ parseMeridiem_pm p1 p2 [] hp1 hp2
  have hhour : parseHour12
        (hh ++ ':' :: digitC (mi / 10) :: digitC (mi % 10) :: p1 :: p2 :: []) =
        some (h12, ':' :: digitC (mi / 10) :: digitC (mi % 10) :: p1 :: p2 :: [])
      ∧ (hh ++ ':' :: digitC (mi / 10) :: digitC (mi % 10) :: p1 :: p2 :: []).dropWhile
          isWsChar =
        hh ++ ':' :: digitC (mi / 10) :: digitC (mi % 10) :: p1 :: p2 :: [] := by
    rcases hhr with ⟨hhh, hle9⟩ | hhh <;> subst hhh
    · exact ⟨parseHour12_one h12 hh1 hle9 ':' _ rfl,
        dropWhile_not_ws _ _ (digitC_not_ws _ (by omega))⟩
    · exact ⟨parseHour12_two h12 hh1 hh2 _,
        dropWhile_not_ws _ _ (digitC_not_ws _ (by omega))⟩
  obtain ⟨hhour1, hhour2⟩ := hhour
  have hdd : ∀ cs : List Char,
      (digitC (d / 10) :: cs).dropWhile isWsChar = digitC (d / 10) :: cs :=
    fun cs => dropWhile_not_ws _ cs (digitC_not_ws _ (by omega))
  rw [strptimeAfterYear]
  simp only [Option.bind_eq_bind, Option.some_bind, render2, List.cons_append,
    List.nil_append, hwd', skipWs1_space, dropWhile_not_ws _ _ hb1, hdd, hmon, hday,
    litChar_cons, hhour1, hhour2, hmin, hmer]
  rw [if_pos ⟨trivial, hy, hd2⟩]

theorem isSome_ite {α : Type} (P : Prop) [Decidable P] (a : α) :
    (if P then some a else none).isSome = decide P := by
  by_cases h : P <;> simp [h]

theorem strptimeAfterYear_isSome_eq (y : Nat) (cs0 : List Char) :
    (strptimeAfterYear y (cs0.dropWhile isWsChar)).isSome = specConformsLayout y cs0 := by
  rw [strptimeAfterYear, specConformsLayout]
  cases parseWeekday (cs0.dropWhile isWsChar) with
  | none => rfl
  | some r1 =>
    simp only [Option.bind_eq_bind, Option.some_bind]
    cases skipWs1 r1 with
    | none => rfl
    | some r2 =>
      simp only [Option.some_bind]
      cases parseMonth r2 with
      | none => rfl
      | some v =>
        obtain ⟨mo, r3⟩ := v
        simp only [Option.some_bind]
        cases skipWs1 r3 with
        | none => rfl
        | some r4 =>
          simp only [Option.some_bind]
          cases parseDay r4 with
          | none => rfl
          | some v =>
            obtain ⟨d, r5⟩ := v
            simp only [Option.some_bind]
            cases litChar ',' r5 with
            | none => rfl
            | some r6 =>
              simp only [Option.some_bind]
              cases skipWs1 r6 with
              | none => rfl
              | some r7 =>
                simp only [Option.some_bind]
                cases parseHour12 r7 with
                | none => rfl
                | some v =>
                  obtain ⟨h12, r8⟩ := v
                  simp only [Option.some_bind]
                  cases litChar ':' r8 with
                  | none => rfl
                  | some r9 =>
                    simp only [Option.some_bind]
                    cases parseMinute r9 with
                    | none => rfl
                    | some v =>
                      obtain ⟨mi, r10⟩ := v
                      simp only [Option.some_bind]
                      cases parseMeridiem r10 with
                      | none => rfl
                      | some v =>
                        obtain ⟨pm, r11⟩ := v
                        simp only [Option.some_bind]
                        exact isSome_ite _ _

theorem strptimeAfterYear_year (y : Nat) (cs : List Char) (dt : DateTime)
    (h : strptimeAfterYear y cs = some dt) : dt.year = (y : Int) := by
  rw [strptimeAfterYear] at h
  simp only [Option.bind_eq_bind, Option.bind_eq_some] at h
  obtain ⟨r3, _, r4, _, ⟨mo, r5⟩, _, r6, _, ⟨d, r7⟩, _, r8, _, r9, _,
    ⟨h12, r10⟩, _, r11, _, ⟨mi, r12⟩, _, ⟨pm, r13⟩, _, h⟩ := h
  split at h
  · cases h
    rfl
  · cases h

theorem parse4Digits_eq_some (cs : List Char) (v : Nat) (r : List Char)
    (h : parse4Digits cs = some (v, r)) :
    ∃ c1 c2 c3 c4, cs = c1 :: c2 :: c3 :: c4 :: r ∧ isAsciiDigit c1 = true ∧
      isAsciiDigit c2 = true ∧ isAsciiDigit c3 = true ∧ isAsciiDigit c4 = true := by
  match cs with
  | [] => cases h
  | [a] => cases h
  | [a, b] => cases h
  | [a, b, c] => cases h
  | a :: b :: c :: d :: rest =>
    rw [parse4Digits] at h
    by_cases hc : isAsciiDigit a && isAsciiDigit b && isAsciiDigit c && isAsciiDigit d
    · rw [if_pos hc] at h
      simp only [Option.some.injEq, Prod.mk.injEq] at h
      simp only [Bool.and_eq_true] at hc
      exact ⟨a, b, c, d, by rw [h.2], hc.1.1.1, hc.1.1.2, hc.1.2, hc.2⟩
    · rw [if_neg hc] at h
      cases h

theorem digit_not_ws (c : Char) (h : isAsciiDigit c = true) : isWsChar c = false := by
  cases hw : isWsChar c with
  | false => rfl
  | true =>
    rcases ws_char_cases c hw with rfl | rfl | rfl | rfl | rfl | rfl <;>
      exact absurd h (by decide)

theorem strptimeFixed_year (y : Nat) (cs : List Char) (dt : DateTime)
    (h : strptimeFixed (renderNat y ++ ' ' :: cs) = some dt) : dt.year = (y : Int) := by
  by_cases hy : 1000 ≤ y ∧ y ≤ 9999
  · rw [strptimeFixed] at h
    rw [parse4Digits_render y hy.1 hy.2] at h
    simp only [Option.bind_eq_bind, Option.some_bind, skipWs1_space] at h
    exact strptimeAfterYear_year y _ dt h
  · exfalso
    rw [strptimeFixed] at h
    simp only [Option.bind_eq_bind, Option.bind_eq_some] at h
    obtain ⟨⟨v, r1⟩, h1, r2, h2, _⟩ := h
    rcases Nat.lt_or_ge y 1000 with hlt | hge
    · -- at most three rendered digits, so `%Y` hits the space
      rcases Nat.lt_or_ge y 10 with h10 | h10
      · rw [renderNat_one y (by omega), List.cons_append, List.nil_append,
            parse4Digits_fail_snd _ _ _ (by decide)] at h1
        cases h1
      · rcases Nat.lt_or_ge y 100 with h100 | h100
        · rw [renderNat_two y (by omega) (by omega), List.cons_append,
              List.cons_append, List.nil_append,
              parse4Digits_fail_trd _ _ _ _ (by decide)] at h1
          cases h1
        · rw [renderNat_three y (by omega) (by omega), List.cons_append,
              List.cons_append, List.cons_append, List.nil_append,
              parse4Digits_fail_fth _ _ _ _ _ (by decide)] at h1
          cases h1
    · -- at least five rendered digits, so the whitespace directive meets a digit
      obtain ⟨c1, c2, c3, c4, hsh, _, _, _, _⟩ := parse4Digits_eq_some _ _ _ h1
      have hlen : 5 ≤ (renderNat y).length := by
        have l1 : 0 < (renderNat (y / 10000)).length :=
          List.length_pos.mpr (renderNat_ne_nil _)
        rw [renderNat_length_succ y (by omega),
            renderNat_length_succ (y / 10) (by omega),
            renderNat_length_succ (y / 10 / 10) (by omega),
            renderNat_length_succ (y / 10 / 10 / 10) (by omega),
            show y / 10 / 10 / 10 / 10 = y / 10000 from by omega]
        omega
      have hdrop : r1 = (renderNat y).drop 4 ++ ' ' :: cs := by
        have h5 : ((renderNat y ++ ' ' :: cs).drop 4) = r1 := by
          rw [hsh]
          rfl
        rw [← h5, List.drop_append_of_le_length (by omega)]
      obtain ⟨c5, t, hct⟩ := List.exists_cons_of_ne_nil
        (show (renderNat y).drop 4 ≠ [] by
          intro hnil
          have := congrArg List.length hnil
          simp at this
          omega)
      have hc5 : isAsciiDigit c5 = true :=
        renderNat_digits y c5 (List.mem_of_mem_drop (hct ▸ List.mem_cons_self c5 t))
      have hr1c : r1 = c5 :: (t ++ ' ' :: cs) := by
        rw [hdrop, hct]
        rfl
      rw [hr1c, skipWs1, digit_not_ws c5 hc5] at h2
      simp at h2

/-! ## Processing lemmas -/

theorem except_bind_ok {α β : Type} (x : Except PErr α) (f : α → Except PErr β) (b : β) :
    (x >>= f) = .ok b ↔ ∃ a, x = .ok a ∧ f a = .ok b := by
  cases x <;> simp [Bind.bind, Except.bind]

theorem except_isOk_exists {α : Type} (x : Except PErr α) (h : x.isOk = true) :
    ∃ a, x = .ok a := by
  cases x with
  | error e => simp [Except.isOk, Except.toBool] at h
  | ok a => exact ⟨a, rfl⟩

theorem processFile_cons (y : Nat) (r : Row) (rs : List Row) :
    processFile y (r :: rs) =
      match processRow y r, processFile y rs with
      | .error e, _ => .error e
      | .ok _, .error e => .error e
      | .ok t, .ok ts => .ok (t :: ts) := by
  cases h1 : processRow y r <;> cases h2 : processFile y rs <;>
    simp [processFile, h1, h2, Bind.bind, Except.bind, pure, Except.pure]

theorem processFile_fails (y : Nat) (pre : List Row) (r : Row) (post : List Row)
    (e : PErr) (hpre : ∀ r' ∈ pre, (processRow y r').isOk = true)
    (hr : processRow y r = .error e) :
    processFile y (pre ++ r :: post) = .error e := by
  induction pre with
  | nil => rw [List.nil_append, processFile_cons, hr]
  | cons p ps ih =>
    obtain ⟨t, ht⟩ :=
      except_isOk_exists _ (hpre p (List.mem_cons_self _ _))
    rw [List.cons_append, processFile_cons, ht,
        ih (fun r' h' => hpre r' (List.mem_cons_of_mem _ h'))]

theorem processAll_cons (y : Nat) (f : List Row) (fs : List (List Row)) :
    processAll y (f :: fs) =
      match processFile y f, processAll y fs with
      | .error e, _ => .error e
      | .ok _, .error e => .error e
      | .ok ts, .ok rest => .ok (ts :: rest) := by
  cases h1 : processFile y f <;> cases h2 : processAll y fs <;>
    simp [processAll, h1, h2, Bind.bind, Except.bind, pure, Except.pure]

theorem processAll_fails (y : Nat) (pre : List (List Row)) (f : List Row)
    (post : List (List Row)) (e : PErr)
    (hpre : ∀ f' ∈ pre, (processFile y f').isOk = true)
    (hf : processFile y f = .error e) :
    processAll y (pre ++ f :: post) = .error e := by
  induction pre with
  | nil => rw [List.nil_append, processAll_cons, hf]
  | cons p ps ih =>
    obtain ⟨ts, hts⟩ :=
      except_isOk_exists _ (hpre p (List.mem_cons_self _ _))
    rw [List.cons_append, processAll_cons, hts,
        ih (fun f' h' => hpre f' (List.mem_cons_of_mem _ h'))]

theorem processRow_ok_fields (y : Nat) (row : Row) (t : Triple)
    (h : processRow y row = .ok t) :
    t.veh.engine.cylinders = some ((rowGet row "Cylinders".data).getD "N/A".data)
    ∧ t.veh.transmission =
        Transmission.fromStr (some ((rowGet row "Transmission Type".data).getD [])) := by
  simp only [processRow] at h
  rw [except_bind_ok] at h; obtain ⟨ds, _, h⟩ := h
  rw [except_bind_ok] at h; obtain ⟨d, _, h⟩ := h
  rw [except_bind_ok] at h; obtain ⟨loc, _, h⟩ := h
  rw [except_bind_ok] at h; obtain ⟨ys, _, h⟩ := h
  rw [except_bind_ok] at h; obtain ⟨yi, _, h⟩ := h
  rw [except_bind_ok] at h; obtain ⟨mk, _, h⟩ := h
  rw [except_bind_ok] at h; obtain ⟨md, _, h⟩ := h
  rw [except_bind_ok] at h; obtain ⟨vin, _, h⟩ := h
  rw [except_bind_ok] at h; obtain ⟨eng, _, h⟩ := h
  rw [except_bind_ok] at h; obtain ⟨veh, hveh, h⟩ := h
  simp only [mkVehicle, yearToInt] at hveh
  simp only [pure, Except.pure, Except.ok.injEq] at h hveh
  subst hveh
  subst h
  exact ⟨rfl, rfl⟩

theorem processFile_ok_pointwise (y : Nat) (rows : List Row) (ts : List Triple)
    (h : processFile y rows = .ok ts) :
    ts.length = rows.length
    ∧ ∀ i (hi : i < rows.length) (hi' : i < ts.length),
        processRow y (rows.get ⟨i, hi⟩) = .ok (ts.get ⟨i, hi'⟩) := by
  induction rows generalizing ts with
  | nil =>
    simp only [processFile] at h
    cases h
    exact ⟨rfl, fun i hi => absurd hi (by simp)⟩
  | cons r rs ih =>
    rw [processFile_cons] at h
    cases h1 : processRow y r with
    | error e => rw [h1] at h; cases h
    | ok t =>
      rw [h1] at h
      cases h2 : processFile y rs with
      | error e => rw [h2] at h; cases h
      | ok ts' =>
        rw [h2] at h
        cases h
        obtain ⟨hlen, hget⟩ := ih ts' h2
        refine ⟨by simp [hlen], ?_⟩
        intro i hi hi'
        cases i with
        | zero => simpa using h1
        | succ j =>
          simp only [List.get_cons_succ]
          exact hget j (by simpa using hi) (by simpa using hi')

/-! ## Theorems -/

/-- C4: if any single file fails, `run_pipeline` fails as a whole with the
first error in file order, returning no auction list; and within a file a
single bad row fails the whole file with the first row error. -/
theorem run_pipeline_fail_fast :
    (∀ (y : Nat) (env : PipelineEnv) (pre : List (List Row)) (f : List Row)
        (post : List (List Row)) (e : PErr),
      env.dirExists = true →
      env.csvFiles = pre ++ f :: post →
      (∀ f' ∈ pre, (processFile y f').isOk = true) →
      processFile y f = .error e →
      run_pipeline y env = .error e)
    ∧ (∀ (y : Nat) (pre : List Row) (r : Row) (post : List Row) (e : PErr),
      (∀ r' ∈ pre, (processRow y r').isOk = true) →
      processRow y r = .error e →
      processFile y (pre ++ r :: post) = .error e) := by
  constructor
  · intro y env pre f post e hdir hfiles hpre hf
    have hall : processAll y env.csvFiles = .error e := by
      rw [hfiles]
      exact processAll_fails y pre f post e hpre hf
    simp [run_pipeline, hdir, hall]
  · exact processFile_fails

/-- C9: `process_file` produces one triple per data row in file order as a
materialized list; an absent "Cylinders" column yields the literal "N/A"
and an absent "Transmission Type" column yields Unknown. -/
theorem process_file_row_mapping (y : Nat) (rows : List Row) (ts : List Triple)
    (h : processFile y rows = .ok ts) :
    ts.length = rows.length
    ∧ (∀ i (hi : i < rows.length) (hi' : i < ts.length),
        processRow y (rows.get ⟨i, hi⟩) = .ok (ts.get ⟨i, hi'⟩))
    ∧ (∀ i (hi : i < rows.length) (hi' : i < ts.length),
        rowGet (rows.get ⟨i, hi⟩) "Cylinders".data = none →
          (ts.get ⟨i, hi'⟩).veh.engine.cylinders = some "N/A".data)
    ∧ (∀ i (hi : i < rows.length) (hi' : i < ts.length),
        rowGet (rows.get ⟨i, hi⟩) "Transmission Type".data = none →
          (ts.get ⟨i, hi'⟩).veh.transmission = .unknown) := by
  obtain ⟨hlen, hget⟩ := processFile_ok_pointwise y rows ts h
  refine ⟨hlen, hget, ?_, ?_⟩
  · intro i hi hi' hc
    obtain ⟨h1, _⟩ := processRow_ok_fields y _ _ (hget i hi hi')
    rw [h1, hc]
    rfl
  · intro i hi hi' hc
    obtain ⟨_, h2⟩ := processRow_ok_fields y _ _ (hget i hi hi')
    rw [h2, hc]
    rfl

/-- C2: on every date string whose normalized-and-extracted form matches the
expected layout, `parse_auction_date` interprets the encoded time of day in
US Central and converts it to UTC by adding the season's offset: 300
minutes when the date falls in the daylight-saving window, 360 minutes
otherwise. -/
theorem parse_auction_date_central_to_utc (y : Nat) (s : List Char)
    (c1 c2 c3 b1 b2 b3 : Char) (m d h12 mi : Nat) (hh : List Char)
    (p1 p2 : Char) (pm : Bool)
    (hy1 : 1000 ≤ y) (hy2 : y ≤ 9999)
    (hwd : memAbbrev weekdayAbbrevs [c1.toLower, c2.toLower, c3.toLower] = true)
    (hmo : abbrevIndex monthAbbrevs 1 [b1.toLower, b2.toLower, b3.toLower] = some m)
    (hd1 : 1 ≤ d) (hd2 : d ≤ daysInMonth (y : Int) m)
    (hh1 : 1 ≤ h12) (hh2 : h12 ≤ 12)
    (hhr : (hh = [digitC h12] ∧ h12 ≤ 9) ∨ hh = render2 h12)
    (hmi : mi ≤ 59)
    (hp2 : p2.toLower = 'm')
    (hpm : (p1.toLower = 'a' ∧ pm = false) ∨ (p1.toLower = 'p' ∧ pm = true))
    (hs : extractDate (normalizeMeridiem s) =
      c1 :: c2 :: c3 :: ' ' :: b1 :: b2 :: b3 :: ' ' ::
        (render2 d ++ ',' :: ' ' :: (hh ++ ':' :: (render2 mi ++ [p1, p2])))) :
    parse_auction_date y s =
      .ok (ofMinutes (DateTime.toMinutes ⟨(y : Int), m, d, to24 h12 pm, mi⟩ +
        (if isCDT ⟨(y : Int), m, d, to24 h12 pm, mi⟩ then 300 else 360))) := by
  have hwsc1 : isWsChar c1 = false := weekday_head_not_ws c1 c2 c3 hwd
  have hfix : strptimeFixed (renderNat y ++ ' ' ::
      (c1 :: c2 :: c3 :: ' ' :: b1 :: b2 :: b3 :: ' ' ::
        (render2 d ++ ',' :: ' ' :: (hh ++ ':' :: (render2 mi ++ [p1, p2]))))) =
      some ⟨(y : Int), m, d, to24 h12 pm, mi⟩ := by
    rw [strptimeFixed]
    simp only [Option.bind_eq_bind, Option.some_bind,
      parse4Digits_render y hy1 hy2, skipWs1_space, dropWhile_not_ws _ _ hwsc1]
    exact strptimeAfterYear_render y (by omega) c1 c2 c3 b1 b2 b3 m d h12 mi hh
      p1 p2 pm hwd hmo hd1 hd2 hh1 hh2 hhr hmi hp2 hpm
  simp only [parse_auction_date, hs, hfix]
  rfl

/-- Witness for C2: the spec's example input parses to the UTC instant with
hour 14 and minute 30 (CST, UTC-6, no daylight saving in December). -/
theorem parse_auction_date_central_to_utc_witness :
    parse_auction_date 2025 "Mon Dec 01, 8:30am CST".data =
      .ok ⟨2025, 12, 1, 14, 30⟩ := by
  have h := parse_auction_date_central_to_utc 2025 "Mon Dec 01, 8:30am CST".data
    'M' 'o' 'n' 'D' 'e' 'c' 12 1 8 30 ['8'] 'A' 'M' false
    (by decide) (by decide) (by decide) (by decide) (by decide) (by decide)
    (by decide) (by decide) (Or.inl ⟨by decide, by decide⟩) (by decide)
    (by decide) (Or.inl ⟨by decide, by decide⟩) (by decide)
  exact h.trans (by decide)

/-- C3: with a four-digit current year, `parse_auction_date` succeeds
exactly when the string left by meridiem normalization and pattern
extraction conforms to the fixed layout, and on every non-conforming input
the failure is the ParseError condition. -/
theorem parse_auction_date_fails_iff_layout (y : Nat) (s : List Char)
    (hy1 : 1000 ≤ y) (hy2 : y ≤ 9999) :
    (parse_auction_date y s).isOk =
      specConformsLayout y (extractDate (normalizeMeridiem s))
    ∧ (specConformsLayout y (extractDate (normalizeMeridiem s)) = false →
        parse_auction_date y s = .error .parseError) := by
  have hfx : strptimeFixed (renderNat y ++ ' ' :: extractDate (normalizeMeridiem s)) =
      strptimeAfterYear y ((extractDate (normalizeMeridiem s)).dropWhile isWsChar) := by
    rw [strptimeFixed]
    simp only [Option.bind_eq_bind, Option.some_bind,
      parse4Digits_render y hy1 hy2, skipWs1_space]
  have hmain : (parse_auction_date y s).isOk =
      specConformsLayout y (extractDate (normalizeMeridiem s)) := by
    rw [← strptimeAfterYear_isSome_eq, ← hfx]
    simp only [parse_auction_date]
    cases strptimeFixed (renderNat y ++ ' ' :: extractDate (normalizeMeridiem s)) <;> rfl
  refine ⟨hmain, fun hf => ?_⟩
  cases hst : strptimeFixed (renderNat y ++ ' ' :: extractDate (normalizeMeridiem s)) with
  | some dt =>
    rw [hfx] at hst
    rw [← strptimeAfterYear_isSome_eq, hst] at hf
    cases hf
  | none => simp only [parse_auction_date, hst]

/-- Witness for C3 at a concrete non-conforming input. -/
theorem parse_auction_date_fails_iff_layout_witness :
    (parse_auction_date 2025 "garbage".data).isOk =
      specConformsLayout 2025 (extractDate (normalizeMeridiem "garbage".data))
    ∧ (specConformsLayout 2025 (extractDate (normalizeMeridiem "garbage".data)) = false →
        parse_auction_date 2025 "garbage".data = .error .parseError) :=
  parse_auction_date_fails_iff_layout 2025 "garbage".data (by decide) (by decide)

/-- C8: every successful parse goes through a naive timestamp whose year is
the current calendar year passed to `parse_auction_date` (the source string
carries no year), which is then interpreted in US Central and converted to
UTC. -/
theorem parse_auction_date_uses_current_year (y : Nat) (s : List Char) (u : DateTime)
    (h : parse_auction_date y s = .ok u) :
    ∃ naive : DateTime,
      strptimeFixed (renderNat y ++ ' ' :: extractDate (normalizeMeridiem s)) =
        some naive
      ∧ naive.year = (y : Int) ∧ u = centralToUTC naive := by
  revert h
  simp only [parse_auction_date]
  cases hst : strptimeFixed (renderNat y ++ ' ' :: extractDate (normalizeMeridiem s)) with
  | none => intro h; cases h
  | some naive =>
    intro h
    cases h
    exact ⟨naive, rfl, strptimeFixed_year y _ naive hst, rfl⟩

/-- Witness for C8 at the December example. -/
theorem parse_auction_date_uses_current_year_witness :
    ∃ naive : DateTime,
      strptimeFixed (renderNat 2025 ++ ' ' ::
        extractDate (normalizeMeridiem "Mon Dec 01, 8:30am CST".data)) = some naive
      ∧ naive.year = (2025 : Int)
      ∧ (⟨2025, 12, 1, 14, 30⟩ : DateTime) = centralToUTC naive :=
  parse_auction_date_uses_current_year 2025 "Mon Dec 01, 8:30am CST".data
    ⟨2025, 12, 1, 14, 30⟩ (by decide)

/-- C5: for every directory path that does not exist, `run_pipeline` fails
with the DirectoryNotFound-kind condition before processing any file, and
no auction list is returned. -/
theorem run_pipeline_missing_directory (y : Nat) (env : PipelineEnv)
    (h : env.dirExists = false) :
    run_pipeline y env = .error .directoryNotFound := by
  simp [run_pipeline, h]

/-- Witness for C5 at a concrete environment. -/
theorem run_pipeline_missing_directory_witness :
    run_pipeline 2025 ⟨false, []⟩ = .error .directoryNotFound :=
  run_pipeline_missing_directory 2025 ⟨false, []⟩ rfl

/-- C6: `Transmission.from_str` is total, trims its input, compares
case-insensitively, maps the "Automatic"/"Manual" vocabulary accordingly
and everything empty, null or unrecognized to Unknown. -/
theorem transmission_fromStr_spec :
    (∀ s : List Char, Transmission.fromStr (some s) =
      (if (trimChars s).map Char.toLower = "automatic".data then .automatic
       else if (trimChars s).map Char.toLower = "manual".data then .manual
       else .unknown))
    ∧ Transmission.fromStr none = .unknown
    ∧ Transmission.fromStr (some []) = .unknown
    ∧ Transmission.fromStr (some "automatic".data) = .automatic
    ∧ Transmission.fromStr (some "AUTOMATIC".data) = .automatic
    ∧ Transmission.fromStr (some "Automatic".data) = .automatic
    ∧ Transmission.fromStr (some "Manual".data) = .manual
    ∧ Transmission.fromStr (some "mAnUaL".data) = .manual
    ∧ Transmission.fromStr (some "Foo".data) = .unknown := by
  refine ⟨?_, by rfl, by rfl, by rfl, by rfl, by rfl, by rfl, by rfl, by rfl⟩
  intro s
  by_cases h0 : s = []
  · subst h0; rfl
  · simp only [Transmission.fromStr, if_neg h0]
    by_cases h1 : trimChars s = []
    · rw [if_pos h1, h1]
      simp [show ¬(([] : List Char) = "automatic".data) from by decide,
            show ¬(([] : List Char) = "manual".data) from by decide]
    · rw [if_neg h1]
      have ha : ("Automatic".data).map Char.toLower = "automatic".data := by decide
      have hm : ("Manual".data).map Char.toLower = "manual".data := by decide
      have hu : ("Unknown".data).map Char.toLower = "unknown".data := by decide
      simp only [transmissionValues, findMember, ha, hm, hu]
      by_cases h2 : (trimChars s).map Char.toLower = "automatic".data
      · simp [h2]
      · by_cases h3 : (trimChars s).map Char.toLower = "manual".data
        · simp [h3, h2, show ¬("automatic".data = "manual".data) from by decide]
        · by_cases h4 : (trimChars s).map Char.toLower = "unknown".data
          · simp [h4, h2, h3,
              show ¬("automatic".data = "unknown".data) from by decide,
              show ¬("manual".data = "unknown".data) from by decide]
          · simp [h2, h3, h4, Ne.symm h2, Ne.symm h3, Ne.symm h4]

/-- C7: `Vehicle` construction fails with a validation error exactly when
the year cannot be interpreted as an integer, and enforces nothing else. -/
theorem vehicle_year_validation :
    (∀ (yr : Int ⊕ List Char) (mk md vin : List Char) (e : Engine) (t : Transmission),
      (mkVehicle yr mk md vin e t).isOk = (yearToInt yr).isSome)
    ∧ mkVehicle (.inr "STARY".data) "Audi".data "A4".data "123".data
        ⟨"V6".data, some "6".data⟩ .automatic = .error .validationError := by
  constructor
  · intro yr mk md vin e t
    cases h : yearToInt yr <;> simp [mkVehicle, h, Except.isOk, Except.toBool]
  · rfl

/-- C1: the merge step of `run_pipeline` produces exactly one auction per
occurring `(utc_date, location)` key, holding all that key's vehicles in
their original row order, and none for a key that does not occur; auctions
of distinct keys are distinct. -/
theorem run_pipeline_groups_by_key (y : Nat) (env : PipelineEnv)
    (results : List (List Triple)) (k : DateTime × List Char)
    (hdir : env.dirExists = true)
    (hres : processAll y env.csvFiles = .ok results) :
    run_pipeline y env = .ok (mergeTriples results.flatten)
    ∧ (mergeTriples results.flatten).filter (fun a => a.akey = k) =
        (if k ∈ (results.flatten).map Triple.tkey then
          [⟨k.1, k.2, ((results.flatten).filter (fun t => t.tkey = k)).map Triple.veh⟩]
        else []) := by
  constructor
  · simp [run_pipeline, hdir, hres]
  · have hnd : ((mergeTriples results.flatten).map Auction.akey).Nodup :=
      foldl_nodup results.flatten [] (by simp)
    rw [filter_akey_of_nodup _ _ hnd]
    have hmem : k ∈ (mergeTriples results.flatten).map Auction.akey ↔
        k ∈ (results.flatten).map Triple.tkey := by
      rw [mergeTriples, foldl_akey_mem]
      simp
    have hveh : vehAt k (mergeTriples results.flatten) =
        ((results.flatten).filter (fun t => t.tkey = k)).map Triple.veh := by
      rw [mergeTriples, foldl_vehAt results.flatten [] (by simp) k]
      rfl
    by_cases hm : k ∈ (results.flatten).map Triple.tkey
    · rw [if_pos (hmem.mpr hm), if_pos hm, hveh]
    · rw [if_neg (fun hh => hm (hmem.mp hh)), if_neg hm]

/-- C10: conservation and key consistency of the merge step: the vehicle
total equals the triple total, every auction's vehicles are exactly the
input triples of its own key (so each triple's vehicle lands in exactly one
auction), keys are pairwise distinct, every auction is nonempty, and every
input key is represented. -/
theorem merge_conservation (rss : List (List Triple)) :
    totalVeh (mergeTriples rss.flatten) = rss.flatten.length
    ∧ ((mergeTriples rss.flatten).map Auction.akey).Nodup
    ∧ (∀ a ∈ mergeTriples rss.flatten,
        a.vehicles = ((rss.flatten).filter (fun t => t.tkey = a.akey)).map Triple.veh
        ∧ a.vehicles ≠ [])
    ∧ (∀ t ∈ rss.flatten, t.tkey ∈ (mergeTriples rss.flatten).map Auction.akey) := by
  have hnd : ((mergeTriples rss.flatten).map Auction.akey).Nodup :=
    foldl_nodup rss.flatten [] (by simp)
  refine ⟨?_, hnd, ?_, ?_⟩
  · rw [mergeTriples, foldl_totalVeh]
    simp [totalVeh]
  · intro a ha
    constructor
    · have hmem : a.akey ∈ (mergeTriples rss.flatten).map Auction.akey :=
        List.mem_map_of_mem _ ha
      have hfil := filter_akey_of_nodup (mergeTriples rss.flatten) a.akey hnd
      rw [if_pos hmem] at hfil
      have hain : a ∈ (mergeTriples rss.flatten).filter (fun b => b.akey = a.akey) := by
        rw [List.mem_filter]
        exact ⟨ha, by simp⟩
      rw [hfil, List.mem_singleton] at hain
      have hveh : vehAt a.akey (mergeTriples rss.flatten) =
          ((rss.flatten).filter (fun t => t.tkey = a.akey)).map Triple.veh := by
        rw [mergeTriples, foldl_vehAt rss.flatten [] (by simp) a.akey]
        rfl
      calc a.vehicles = (⟨a.akey.1, a.akey.2, vehAt a.akey (mergeTriples rss.flatten)⟩ :
              Auction).vehicles := by rw [← hain]
        _ = ((rss.flatten).filter (fun t => t.tkey = a.akey)).map Triple.veh := hveh
    · exact foldl_nonempty rss.flatten [] (by simp) a ha
  · intro t ht
    rw [mergeTriples, foldl_akey_mem]
    exact Or.inr (List.mem_map_of_mem _ ht)

/-- Witness for C1: two same-key rows merge into the single auction holding
both vehicles in row order. -/
theorem run_pipeline_groups_by_key_witness :
    run_pipeline 2025 sampleEnv = .ok (mergeTriples sampleResults.flatten)
    ∧ (mergeTriples sampleResults.flatten).filter (fun a => a.akey = sampleKey) =
        [⟨sampleKey.1, sampleKey.2,
          ((sampleResults.flatten).filter (fun t => t.tkey = sampleKey)).map Triple.veh⟩] := by
  have h := run_pipeline_groups_by_key 2025 sampleEnv sampleResults sampleKey rfl (by decide)
  exact ⟨h.1, by rw [h.2, if_pos (by decide)]⟩

/-- Witness for C4: the bad-year row fails its file and the whole pipeline
with the validation error. -/
theorem run_pipeline_fail_fast_witness :
    run_pipeline 2025 badEnv = .error .validationError
    ∧ processFile 2025 ([] ++ badRow :: []) = .error .validationError := by
  constructor
  · exact run_pipeline_fail_fast.1 2025 badEnv [] [badRow] [] .validationError rfl rfl
      (by simp) (by decide)
  · exact run_pipeline_fail_fast.2 2025 [] badRow [] .validationError (by simp) (by decide)

/-- Witness for C9 at the sample row lacking both optional columns. -/
theorem process_file_row_mapping_witness :
    ([sampleTriple1] : List Triple).length = [sampleRow1].length
    ∧ sampleTriple1.veh.engine.cylinders = some "N/A".data
    ∧ sampleTriple1.veh.transmission = .unknown := by
  have h := process_file_row_mapping 2025 [sampleRow1] [sampleTriple1] (by decide)
  exact ⟨h.1, h.2.2.1 0 (by decide) (by decide) (by decide),
         h.2.2.2 0 (by decide) (by decide) (by decide)⟩

/-- Witness for C10 at the sample results. -/
theorem merge_conservation_witness :
    totalVeh (mergeTriples sampleResults.flatten) = sampleResults.flatten.length
    ∧ (⟨sampleDT, "Chicago".data, [sampleVeh1, sampleVeh2]⟩ : Auction).vehicles ≠ [] := by
  refine ⟨(merge_conservation sampleResults).1, ?_⟩
  exact ((merge_conservation sampleResults).2.2.1 _ (by decide)).2

end VehicleAuctions
